import Mathlib

/-!
Verification of the log-extraction and response-parsing logic of the
ai-devops-projects repository.  Strings are modelled as `List Char`;
each Python function used by the claims is translated into an
executable Lean definition, and the spec's testable properties are
settled against those definitions.
-/

namespace AIDevOps

/-! ### Python string primitives -/

/-- The whitespace characters stripped by Python's `str.strip` family
(ASCII fragment). -/
def pySpace : Char → Bool := fun c =>
  c = ' ' || c = '\t' || c = '\n' || c = '\r' || c = '\x0b' || c = '\x0c'

/-- Python `str.rstrip()`. -/
def pyRstrip (l : List Char) : List Char :=
  (l.reverse.dropWhile pySpace).reverse

/-- Python `str.lstrip()`. -/
def pyLstrip (l : List Char) : List Char := l.dropWhile pySpace

/-- Python `str.strip()`. -/
def pyStrip (l : List Char) : List Char := pyRstrip (pyLstrip l)

/-! ### `_remove_repeated_suffix` from `k8s_debugger.py`

```python
length = len(text)
for split in range(length // 3, length // 2 + 1):
    first_part = text[:split].rstrip()
    second_part = text[split:].strip()
    if second_part and first_part.endswith(second_part):
        return first_part
return text
```
-/

def removeRepeatedSuffix (text : List Char) : List Char :=
  match (List.range' (text.length / 3) (text.length / 2 + 1 - text.length / 3)).find?
      (fun split =>
        !(pyStrip (text.drop split)).isEmpty
          && decide (pyStrip (text.drop split) <:+ pyRstrip (text.take split))) with
  | some split => pyRstrip (text.take split)
  | none => text

/-! ### Basic lemmas about the primitives -/

theorem pyRstrip_prefix_self (l : List Char) : pyRstrip l <+: l := by
  have h : l.reverse.dropWhile pySpace <:+ l.reverse := List.dropWhile_suffix _
  have h2 : (l.reverse.dropWhile pySpace).reverse <+: l.reverse.reverse :=
    List.reverse_prefix.mpr (by simpa using h)
  simpa [pyRstrip] using h2

/-- **C2** (amended): each application of the suffix-repetition repair
either returns its input unchanged or returns a right-stripped prefix of at
most half the input length, so iterated application reaches a fixed point;
a single application is however not idempotent (see the counterexample). -/
theorem removeRepeatedSuffix_cases (s : List Char) :
    removeRepeatedSuffix s = s ∨
      (removeRepeatedSuffix s <+: s ∧ 2 * (removeRepeatedSuffix s).length ≤ s.length) := by
  rcases h : (List.range' (s.length / 3) (s.length / 2 + 1 - s.length / 3)).find?
      (fun split =>
        !(pyStrip (s.drop split)).isEmpty
          && decide (pyStrip (s.drop split) <:+ pyRstrip (s.take split))) with _ | split
  · have heq : removeRepeatedSuffix s = s := by
      unfold removeRepeatedSuffix; rw [h]
    exact Or.inl heq
  · have heq : removeRepeatedSuffix s = pyRstrip (s.take split) := by
      unfold removeRepeatedSuffix; rw [h]
    rw [heq]
    refine Or.inr ⟨(pyRstrip_prefix_self _).trans (List.take_prefix _ _), ?_⟩
    have hmem := List.mem_of_find?_eq_some h
    have hlt : split < s.length / 3 + (s.length / 2 + 1 - s.length / 3) :=
      (List.mem_range'_1.mp hmem).2
    have hdiv : s.length / 3 ≤ s.length / 2 + 1 :=
      le_trans (Nat.div_le_div_left (by norm_num) (by norm_num)) (Nat.le_succ _)
    have hsplit : split ≤ s.length / 2 := by omega
    have hlen : (pyRstrip (s.take split)).length ≤ split := by
      have := (pyRstrip_prefix_self (s.take split)).length_le
      have := s.length_take_le split
      omega
    have hhalf : 2 * (s.length / 2) ≤ s.length := by omega
    omega

/-! ### `extract_error_from_logs` from `github_actions_healer.py`

The function splits the log text on newlines, finds every line that
(case-insensitively) contains one of the error keywords, renders an
8-before/12-after context window around each match whose index is not
already covered, and finally truncates to 1500 characters with an
explicit marker, falling back to the last 40 lines when nothing matched.
-/

def lowerList (l : List Char) : List Char := l.map Char.toLower

def error_keywords : List (List Char) :=
  [("error:").toList, ("error ").toList, ("ERROR:").toList, ("ERROR ").toList,
   ("failed").toList, ("failure").toList, ("fail:").toList, ("FAILED").toList,
   ("not found").toList, ("does not exist").toList, ("no such file").toList,
   ("exception").toList, ("traceback").toList, ("Traceback").toList,
   ("fatal:").toList, ("cannot").toList, ("unable to").toList,
   ("exit code").toList, ("returned non-zero").toList,
   ("command not found").toList, ("permission denied").toList]

/-- `any(keyword in line_lower for keyword in error_keywords)` -/
def matchesKeyword (line : List Char) : Bool :=
  error_keywords.any (fun k => decide (k <:+: lowerList line))

/-- `'\n'.join(sections)` -/
def joinNL : List (List Char) → List Char
  | [] => []
  | [x] => x
  | x :: y :: xs => x ++ '\n' :: joinNL (y :: xs)

/-- `f"--- Error Block {n} ---"` -/
def headerStr (n : Nat) : List Char :=
  ("--- Error Block ").toList ++ (toString n).toList ++ (" ---").toList

/-- `"\n... (truncated for brevity)"` -/
def truncMarker : List Char := ("\n... (truncated for brevity)").toList

/-- One iteration of the scanning loop: state is `(seen_lines, error_sections)`. -/
def healStep (len : Nat) (lines : List (List Char))
    (st : List Nat × List (List Char)) (p : Nat × List Char) :
    List Nat × List (List Char) :=
  if matchesKeyword p.2 then
    if p.1 ∈ st.1 then st
    else
      (st.1 ++ List.range' (p.1 - 8) (min len (p.1 + 12) - (p.1 - 8)),
       st.2 ++ [headerStr (st.2.length + 1),
                joinNL ((lines.take (min len (p.1 + 12))).drop (p.1 - 8)),
                []])
  else st

def extract_error_from_logs (logs : List Char) : List Char :=
  let lines := logs.splitOn '\n'
  let sections := (lines.enum.foldl (healStep lines.length lines) ([], [])).2
  if sections.isEmpty then
    joinNL (lines.drop (lines.length - 40))
  else
    let result := joinNL sections
    if 1500 < result.length then result.take 1500 ++ truncMarker
    else result

/-- The same loop, recording only the emitted window bounds `[start, stop)`. -/
def windowStep (len : Nat) (st : List Nat × List (Nat × Nat)) (p : Nat × List Char) :
    List Nat × List (Nat × Nat) :=
  if matchesKeyword p.2 then
    if p.1 ∈ st.1 then st
    else
      (st.1 ++ List.range' (p.1 - 8) (min len (p.1 + 12) - (p.1 - 8)),
       st.2 ++ [(p.1 - 8, min len (p.1 + 12))])
  else st

/-- The context windows emitted by `extract_error_from_logs` on a document. -/
def extractWindows (logs : List Char) : List (Nat × Nat) :=
  let lines := logs.splitOn '\n'
  ((lines.enum.foldl (windowStep lines.length) ([], []))).2

/-- Rendering a window list into the section strings accumulated by the
scanning loop (`k` counts the windows already rendered). -/
def renderWindows (lines : List (List Char)) : Nat → List (Nat × Nat) → List (List Char)
  | _, [] => []
  | k, w :: ws =>
      headerStr (3 * k + 1) :: joinNL ((lines.take w.2).drop w.1) :: [] ::
        renderWindows lines (k + 1) ws

/-- The line indices covered by a window list. -/
def rangesOf (ws : List (Nat × Nat)) : List Nat :=
  ws.flatMap (fun w => List.range' w.1 (w.2 - w.1))

/-- Counts the positions at which `needle` occurs in `hay`. -/
def countOccur (needle hay : List Char) : Nat :=
  (List.range (hay.length + 1)).countP (fun i => decide (needle <+: hay.drop i))

/-! ### Lemmas about `joinNL` -/

theorem joinNL_eq_intercalate (l : List (List Char)) :
    joinNL l = List.intercalate ['\n'] l := by
  match l with
  | [] => simp [joinNL, List.intercalate, List.intersperse]
  | [x] => simp [joinNL, List.intercalate, List.intersperse]
  | x :: y :: xs =>
      have ih := joinNL_eq_intercalate (y :: xs)
      simp only [joinNL, ih, List.intercalate, List.intersperse]
      simp

theorem joinNL_splitOn (logs : List Char) : joinNL (logs.splitOn '\n') = logs := by
  rw [joinNL_eq_intercalate]
  exact List.intercalate_splitOn logs '\n'

theorem joinNL_cons_ne_nil {x : List Char} {xs : List (List Char)} (hx : x ≠ []) :
    joinNL (x :: xs) ≠ [] := by
  match xs with
  | [] => simpa [joinNL] using hx
  | y :: ys =>
      simp only [joinNL]
      exact List.append_ne_nil_of_right_ne_nil _ (List.cons_ne_nil _ _)

theorem joinNL_ne_nil_of_two_le {l : List (List Char)} (h : 2 ≤ l.length) :
    joinNL l ≠ [] := by
  match l with
  | [] => simp at h
  | [x] => simp at h
  | x :: y :: xs =>
      simp only [joinNL]
      exact List.append_ne_nil_of_right_ne_nil _ (List.cons_ne_nil _ _)

theorem mem_infix_joinNL {x : List Char} {l : List (List Char)} (h : x ∈ l) :
    x <:+: joinNL l := by
  match l with
  | [] => simp at h
  | [y] =>
      rw [List.mem_cons] at h
      rcases h with rfl | h
      · exact List.infix_refl _
      · simp at h
  | y :: z :: xs =>
      rw [List.mem_cons] at h
      rcases h with rfl | h
      · exact (List.prefix_append _ _).isInfix
      · have ih := mem_infix_joinNL h
        have h2 : joinNL (z :: xs) <:+ joinNL (y :: z :: xs) := by
          simp only [joinNL]
          exact (List.suffix_cons '\n' _).trans (List.suffix_append _ _)
        exact ih.trans h2.isInfix

theorem headerStr_ne_nil (n : Nat) : headerStr n ≠ [] := by
  have ha : ("--- Error Block ").toList ≠ [] := by decide
  unfold headerStr
  exact List.append_ne_nil_of_left_ne_nil ha _

/-! ### The scanning loop and the window loop walk in lockstep -/

theorem renderWindows_append (lines : List (List Char)) (k : Nat)
    (ws ws' : List (Nat × Nat)) :
    renderWindows lines k (ws ++ ws') =
      renderWindows lines k ws ++ renderWindows lines (k + ws.length) ws' := by
  induction ws generalizing k with
  | nil => simp [renderWindows]
  | cons w t ih =>
      simp only [List.cons_append, renderWindows, List.length_cons, List.append_eq]
      rw [ih (k + 1)]
      have harith : k + 1 + t.length = k + (t.length + 1) := by omega
      rw [harith]

theorem length_renderWindows (lines : List (List Char)) (k : Nat)
    (ws : List (Nat × Nat)) :
    (renderWindows lines k ws).length = 3 * ws.length := by
  induction ws generalizing k with
  | nil => simp [renderWindows]
  | cons w t ih => simp [renderWindows, ih]; omega

theorem heal_window_foldl (len : Nat) (lines : List (List Char))
    (l : List (Nat × List Char)) :
    ∀ (seen : List Nat) (ws : List (Nat × Nat)),
      List.foldl (healStep len lines) (seen, renderWindows lines 0 ws) l =
        ((List.foldl (windowStep len) (seen, ws) l).1,
         renderWindows lines 0 (List.foldl (windowStep len) (seen, ws) l).2) := by
  induction l with
  | nil => intro seen ws; simp
  | cons p t ih =>
      intro seen ws
      simp only [List.foldl_cons]
      by_cases hm : matchesKeyword p.2
      · by_cases hs : p.1 ∈ seen
        · simp only [healStep, windowStep, hm, if_true, hs, if_true]
          exact ih seen ws
        · simp only [healStep, windowStep, hm, if_true, hs, if_false]
          have hr : renderWindows lines 0 ws ++
                [headerStr ((renderWindows lines 0 ws).length + 1),
                 joinNL ((lines.take (min len (p.1 + 12))).drop (p.1 - 8)), []] =
              renderWindows lines 0 (ws ++ [(p.1 - 8, min len (p.1 + 12))]) := by
            rw [renderWindows_append, length_renderWindows]
            simp [renderWindows]
          rw [hr]
          exact ih _ _
      · simp only [healStep, windowStep, hm, if_false]
        exact ih seen ws

theorem extract_sections_eq (logs : List Char) :
    ((logs.splitOn '\n').enum.foldl
        (healStep (logs.splitOn '\n').length (logs.splitOn '\n')) ([], [])).2 =
      renderWindows (logs.splitOn '\n') 0 (extractWindows logs) := by
  have h := heal_window_foldl (logs.splitOn '\n').length (logs.splitOn '\n')
      (logs.splitOn '\n').enum [] []
  simp only [renderWindows] at h
  rw [h]
  rfl

/-! ### Invariants of the window loop -/

theorem rangesOf_append (ws : List (Nat × Nat)) (w : Nat × Nat) :
    rangesOf (ws ++ [w]) = rangesOf ws ++ List.range' w.1 (w.2 - w.1) := by
  simp [rangesOf]

theorem windowStep_seen_mono (len : Nat) (st : List Nat × List (Nat × Nat))
    (p : Nat × List Char) {x : Nat} (hx : x ∈ st.1) :
    x ∈ (windowStep len st p).1 := by
  unfold windowStep
  by_cases hm : matchesKeyword p.2
  · by_cases hs : p.1 ∈ st.1 <;> simp [hm, hs, hx]
  · simp [hm, hx]

theorem windowFold_seen_mono (len : Nat) (l : List (Nat × List Char)) :
    ∀ (st : List Nat × List (Nat × Nat)) (x : Nat), x ∈ st.1 →
      x ∈ (List.foldl (windowStep len) st l).1 := by
  induction l with
  | nil => intro st x hx; simpa using hx
  | cons p t ih =>
      intro st x hx
      rw [List.foldl_cons]
      exact ih _ x (windowStep_seen_mono len st p hx)

theorem windowFold_cover (len : Nat) (l : List (Nat × List Char)) :
    ∀ (st : List Nat × List (Nat × Nat)) (p : Nat × List Char),
      p ∈ l → matchesKeyword p.2 = true → p.1 < len →
      p.1 ∈ (List.foldl (windowStep len) st l).1 := by
  induction l with
  | nil => simp
  | cons q t ih =>
      intro st p hp hm hlen
      rw [List.mem_cons] at hp
      rw [List.foldl_cons]
      rcases hp with rfl | hp
      · apply windowFold_seen_mono len t
        unfold windowStep
        by_cases hs : p.1 ∈ st.1
        · simp [hm, hs]
        · simp only [hm, if_true, hs, if_false]
          have : p.1 ∈ List.range' (p.1 - 8) (min len (p.1 + 12) - (p.1 - 8)) := by
            rw [List.mem_range'_1]
            omega
          simp [this]
      · exact ih _ p hp hm hlen

theorem windowFold_ranges (len : Nat) (l : List (Nat × List Char)) :
    ∀ ws : List (Nat × Nat),
      (List.foldl (windowStep len) (rangesOf ws, ws) l).1 =
        rangesOf (List.foldl (windowStep len) (rangesOf ws, ws) l).2 := by
  induction l with
  | nil => intro ws; rfl
  | cons p t ih =>
      intro ws
      rw [List.foldl_cons]
      by_cases hm : matchesKeyword p.2
      · by_cases hs : p.1 ∈ rangesOf ws
        · have hstep : windowStep len (rangesOf ws, ws) p = (rangesOf ws, ws) := by
            simp [windowStep, hm, hs]
          rw [hstep]; exact ih ws
        · have hstep : windowStep len (rangesOf ws, ws) p =
              (rangesOf (ws ++ [(p.1 - 8, min len (p.1 + 12))]),
               ws ++ [(p.1 - 8, min len (p.1 + 12))]) := by
            simp [windowStep, hm, hs, rangesOf_append]
          rw [hstep]; exact ih _
      · have hstep : windowStep len (rangesOf ws, ws) p = (rangesOf ws, ws) := by
          simp [windowStep, hm]
        rw [hstep]; exact ih ws

theorem windowFold_wf (len : Nat) (l : List (Nat × List Char)) :
    ∀ (st : List Nat × List (Nat × Nat)),
      (∀ w ∈ st.2, w.2 ≤ len) →
      ∀ w ∈ (List.foldl (windowStep len) st l).2, w.2 ≤ len := by
  induction l with
  | nil => intro st h; exact h
  | cons p t ih =>
      intro st h
      rw [List.foldl_cons]
      apply ih
      intro w hw
      unfold windowStep at hw
      by_cases hm : matchesKeyword p.2
      · by_cases hs : p.1 ∈ st.1
        · simp only [hm, if_true, hs, if_false] at hw
          exact h w hw
        · simp only [hm, if_true, hs, if_false, List.mem_append, List.mem_singleton] at hw
          rcases hw with hw | rfl
          · exact h w hw
          · exact Nat.min_le_left _ _
      · simp only [hm, if_false] at hw
        exact h w hw

theorem windowFold_nomatch (len : Nat) (l : List (Nat × List Char)) :
    ∀ st, (∀ p ∈ l, matchesKeyword p.2 = false) →
      List.foldl (windowStep len) st l = st := by
  induction l with
  | nil => intro st _; rfl
  | cons p t ih =>
      intro st h
      rw [List.foldl_cons]
      have hp : matchesKeyword p.2 = false := h p (List.mem_cons_self _ _)
      have hstep : windowStep len st p = st := by
        simp [windowStep, hp]
      rw [hstep]
      exact ih st (fun q hq => h q (List.mem_cons_of_mem _ hq))

theorem windowFold_sorted_aux (len : Nat) (lines' : List (List Char)) :
    ∀ (n : Nat) (st : List Nat × List (Nat × Nat)),
      (∀ w ∈ st.2, ∃ j, j < n ∧ w.1 = j - 8) →
      List.Chain' (fun a b => a.1 ≤ b.1) st.2 →
      (∀ w ∈ (List.foldl (windowStep len) st (lines'.enumFrom n)).2,
          ∃ j, j < n + lines'.length ∧ w.1 = j - 8) ∧
        List.Chain' (fun a b => a.1 ≤ b.1)
          (List.foldl (windowStep len) st (lines'.enumFrom n)).2 := by
  induction lines' with
  | nil =>
      intro n st h1 h2
      rw [List.enumFrom_nil, List.foldl_nil]
      simp only [List.length_nil, Nat.add_zero]
      exact ⟨h1, h2⟩
  | cons line rest ih =>
      intro n st h1 h2
      rw [List.enumFrom_cons, List.foldl_cons]
      have hstep : (∀ w ∈ (windowStep len st (n, line)).2, ∃ j, j < n + 1 ∧ w.1 = j - 8) ∧
          List.Chain' (fun a b => a.1 ≤ b.1) (windowStep len st (n, line)).2 := by
        unfold windowStep
        by_cases hm : matchesKeyword line
        · by_cases hs : n ∈ st.1
          · simp only [hm, if_true, hs, if_false]
            exact ⟨fun w hw => (h1 w hw).imp (fun j hj => ⟨hj.1.trans (Nat.lt_succ_self _), hj.2⟩), h2⟩
          · simp only [hm, if_true, hs, if_false]
            constructor
            · intro w hw
              rw [List.mem_append, List.mem_singleton] at hw
              rcases hw with hw | rfl
              · exact (h1 w hw).imp (fun j hj => ⟨hj.1.trans (Nat.lt_succ_self _), hj.2⟩)
              · exact ⟨n, Nat.lt_succ_self _, rfl⟩
            · rw [List.chain'_append]
              refine ⟨h2, List.chain'_singleton _, ?_⟩
              intro x hx y hy
              have hxm : x ∈ st.2 := List.mem_of_getLast?_eq_some hx
              obtain ⟨j, hj, he⟩ := h1 x hxm
              simp only [List.head?_cons, Option.mem_def, Option.some.injEq] at hy
              subst hy
              simp only [he]
              omega
        · simp only [hm, if_false]
          exact ⟨fun w hw => (h1 w hw).imp (fun j hj => ⟨hj.1.trans (Nat.lt_succ_self _), hj.2⟩), h2⟩
      have hres := ih (n + 1) _ hstep.1 hstep.2
      refine ⟨fun w hw => ?_, hres.2⟩
      obtain ⟨j, hj1, hj2⟩ := hres.1 w hw
      exact ⟨j, by simp only [List.length_cons]; omega, hj2⟩

/-! ### Putting the extractor facts together -/

theorem renderWindows_isEmpty (lines : List (List Char)) (k : Nat)
    (ws : List (Nat × Nat)) :
    (renderWindows lines k ws).isEmpty = ws.isEmpty := by
  cases ws <;> simp [renderWindows]

theorem extract_eq (logs : List Char) :
    extract_error_from_logs logs =
      if (extractWindows logs).isEmpty then
        joinNL ((logs.splitOn '\n').drop ((logs.splitOn '\n').length - 40))
      else
        if 1500 <
            (joinNL (renderWindows (logs.splitOn '\n') 0 (extractWindows logs))).length then
          (joinNL (renderWindows (logs.splitOn '\n') 0 (extractWindows logs))).take 1500
            ++ truncMarker
        else joinNL (renderWindows (logs.splitOn '\n') 0 (extractWindows logs)) := by
  simp only [extract_error_from_logs]
  rw [extract_sections_eq logs, renderWindows_isEmpty]

theorem extractWindows_le_len (logs : List Char) :
    ∀ w ∈ extractWindows logs, w.2 ≤ (logs.splitOn '\n').length := by
  simp only [extractWindows]
  exact windowFold_wf _ _ ([], []) (by simp)

theorem extractWindows_sorted (logs : List Char) :
    List.Chain' (fun a b => a.1 ≤ b.1) (extractWindows logs) := by
  simp only [extractWindows]
  have he : (logs.splitOn '\n').enum = (logs.splitOn '\n').enumFrom 0 := rfl
  rw [he]
  exact (windowFold_sorted_aux (logs.splitOn '\n').length (logs.splitOn '\n') 0 ([], [])
    (by simp) (by simp)).2

theorem extractWindows_seen (logs : List Char) :
    ((logs.splitOn '\n').enum.foldl
        (windowStep (logs.splitOn '\n').length) ([], [])).1 =
      rangesOf (extractWindows logs) := by
  simp only [extractWindows]
  have h := windowFold_ranges (logs.splitOn '\n').length (logs.splitOn '\n').enum []
  simpa [rangesOf] using h

theorem extractWindows_cover (logs : List Char) {i : Nat} {line : List Char}
    (hget : (logs.splitOn '\n')[i]? = some line)
    (hm : matchesKeyword line = true) :
    ∃ w ∈ extractWindows logs, w.1 ≤ i ∧ i < w.2 := by
  have hlen : i < (logs.splitOn '\n').length := by
    obtain ⟨h, _⟩ := List.getElem?_eq_some_iff.mp hget
    exact h
  have hmem : (i, line) ∈ (logs.splitOn '\n').enum := by
    rw [List.mem_enum_iff_getElem?]
    simpa using hget
  have hseen : i ∈ rangesOf (extractWindows logs) := by
    rw [← extractWindows_seen]
    exact windowFold_cover _ _ ([], []) (i, line) hmem hm hlen
  rw [rangesOf, List.mem_flatMap] at hseen
  obtain ⟨w, hw, hr⟩ := hseen
  have hb := List.mem_range'_1.mp hr
  exact ⟨w, hw, hb.1, by omega⟩

theorem extractWindows_ne_nil (logs : List Char) {i : Nat} {line : List Char}
    (hget : (logs.splitOn '\n')[i]? = some line)
    (hm : matchesKeyword line = true) :
    extractWindows logs ≠ [] := by
  obtain ⟨w, hw, _⟩ := extractWindows_cover logs hget hm
  exact List.ne_nil_of_mem hw

theorem extractWindows_eq_nil_of_nomatch (logs : List Char)
    (h : ∀ line ∈ logs.splitOn '\n', matchesKeyword line = false) :
    extractWindows logs = [] := by
  simp only [extractWindows]
  have hc : ∀ p ∈ (logs.splitOn '\n').enum, matchesKeyword p.2 = false := by
    intro p hp
    have hget : (logs.splitOn '\n')[p.1]? = some p.2 :=
      List.mem_enum_iff_getElem?.mp hp
    exact h _ (List.getElem?_mem hget)
  rw [windowFold_nomatch _ _ ([], []) hc]

theorem extract_ne_nil_of_windows (logs : List Char)
    (h : extractWindows logs ≠ []) : extract_error_from_logs logs ≠ [] := by
  rw [extract_eq, if_neg (by simpa [List.isEmpty_iff] using h)]
  by_cases ht : 1500 <
      (joinNL (renderWindows (logs.splitOn '\n') 0 (extractWindows logs))).length
  · rw [if_pos ht]
    exact List.append_ne_nil_of_right_ne_nil _ (by decide)
  · rw [if_neg ht]
    rcases hw : extractWindows logs with _ | ⟨w, ws⟩
    · exact absurd hw h
    · simp only [renderWindows]
      exact joinNL_cons_ne_nil (headerStr_ne_nil _)

theorem fallback_ne_nil (logs : List Char) (h : logs ≠ []) :
    joinNL ((logs.splitOn '\n').drop ((logs.splitOn '\n').length - 40)) ≠ [] := by
  by_cases hlen : (logs.splitOn '\n').length ≤ 40
  · have h0 : (logs.splitOn '\n').length - 40 = 0 := by omega
    rw [h0, List.drop_zero, joinNL_splitOn]
    exact h
  · apply joinNL_ne_nil_of_two_le
    rw [List.length_drop]
    omega

theorem slice_mem_renderWindows (lines : List (List Char)) (ws : List (Nat × Nat))
    (w : Nat × Nat) (hw : w ∈ ws) :
    ∀ k, joinNL ((lines.take w.2).drop w.1) ∈ renderWindows lines k ws := by
  induction ws with
  | nil => simp at hw
  | cons v t ih =>
      intro k
      rw [List.mem_cons] at hw
      rcases hw with rfl | hw
      · simp [renderWindows]
      · exact List.mem_cons_of_mem _ (List.mem_cons_of_mem _
          (List.mem_cons_of_mem _ (ih hw (k + 1))))

theorem matchesKeyword_replicate_a (n : Nat) :
    matchesKeyword (List.replicate n 'a') = false := by
  unfold matchesKeyword
  rw [List.any_eq_false]
  intro k hk
  simp only [decide_eq_true_eq]
  intro hinf
  have hta : Char.toLower 'a' = 'a' := by decide
  have hlow : lowerList (List.replicate n 'a') = List.replicate n 'a' := by
    simp [lowerList, List.map_replicate, hta]
  rw [hlow] at hinf
  have hall : ∀ c ∈ k, c = 'a' := fun c hc =>
    List.eq_of_mem_replicate (hinf.sublist.subset hc)
  have hne : ∃ c ∈ k, c ≠ 'a' := by
    fin_cases hk <;> decide
  obtain ⟨c, hc, hcne⟩ := hne
  exact hcne (hall c hc)

theorem splitOn_replicate_a (n : Nat) :
    (List.replicate n 'a' : List Char).splitOn '\n' = [List.replicate n 'a'] := by
  rw [List.splitOn]
  apply List.splitOnP_eq_single
  intro c hc
  rw [List.eq_of_mem_replicate hc]
  decide

/-! ### Claim C5 -/

/-- **C5**: the extractor's result is empty iff the input document is empty;
on a non-empty document with no keyword matches it returns the last-40-lines
fallback window and never the empty string. -/
theorem c5_extract_empty_iff (logs : List Char) :
    (extract_error_from_logs logs = [] ↔ logs = []) ∧
      (logs ≠ [] → (∀ line ∈ logs.splitOn '\n', matchesKeyword line = false) →
        extract_error_from_logs logs =
            joinNL ((logs.splitOn '\n').drop ((logs.splitOn '\n').length - 40)) ∧
          extract_error_from_logs logs ≠ []) := by
  have hfb : (∀ line ∈ logs.splitOn '\n', matchesKeyword line = false) →
      extract_error_from_logs logs =
        joinNL ((logs.splitOn '\n').drop ((logs.splitOn '\n').length - 40)) := by
    intro h
    rw [extract_eq, extractWindows_eq_nil_of_nomatch logs h]
    rw [if_pos (show ([] : List (Nat × Nat)).isEmpty = true from rfl)]
  constructor
  · constructor
    · intro he
      by_contra hne
      rcases hw : extractWindows logs with _ | ⟨w, ws⟩
      · have heq : extract_error_from_logs logs =
            joinNL ((logs.splitOn '\n').drop ((logs.splitOn '\n').length - 40)) := by
          rw [extract_eq, hw]; simp
        exact fallback_ne_nil logs hne (heq ▸ he)
      · exact extract_ne_nil_of_windows logs (by rw [hw]; simp) he
    · rintro rfl
      decide
  · intro hne hnm
    exact ⟨hfb hnm, by rw [hfb hnm]; exact fallback_ne_nil logs hne⟩

theorem c5_extract_empty_iff_witness :
    extract_error_from_logs (("hello").toList) =
        joinNL (((("hello").toList).splitOn '\n').drop
          (((("hello").toList).splitOn '\n').length - 40)) ∧
      extract_error_from_logs (("hello").toList) ≠ [] :=
  (c5_extract_empty_iff (("hello").toList)).2 (by decide) (by decide)

/-! ### Claim C3 -/

/-- **C3** (amended): whenever at least one line of the document matches a
keyword, the extractor's output length is at most the 1500-character budget
plus the truncation-marker length; oversize evidence is truncated with the
marker appended.  (The no-match fallback path returns the raw last-40-lines
tail instead, which is why the hypothesis is needed.) -/
theorem c3_budget_of_match (logs : List Char)
    (h : ∃ line ∈ logs.splitOn '\n', matchesKeyword line = true) :
    (extract_error_from_logs logs).length ≤ 1500 + truncMarker.length := by
  obtain ⟨line, hline, hm⟩ := h
  obtain ⟨i, hget⟩ := List.getElem?_of_mem hline
  have hwne : extractWindows logs ≠ [] := extractWindows_ne_nil logs hget hm
  rw [extract_eq, if_neg (by simpa [List.isEmpty_iff] using hwne)]
  by_cases ht : 1500 <
      (joinNL (renderWindows (logs.splitOn '\n') 0 (extractWindows logs))).length
  · rw [if_pos ht, List.length_append, List.length_take]
    omega
  · rw [if_neg ht]
    omega

theorem c3_budget_of_match_witness :
    (extract_error_from_logs (("error: x").toList)).length ≤
      1500 + truncMarker.length :=
  c3_budget_of_match (("error: x").toList) (by decide)

/-- **C3** (counterexample): a 1530-character document with no keyword match
is returned whole by the fallback path, exceeding the 1500-character budget
plus marker length, with no truncation marker. -/
theorem c3_counterexample :
    1500 + truncMarker.length <
      (extract_error_from_logs (List.replicate 1530 'a')).length := by
  have hnm : ∀ line ∈ (List.replicate 1530 'a' : List Char).splitOn '\n',
      matchesKeyword line = false := by
    rw [splitOn_replicate_a]
    intro line hl
    rw [List.mem_singleton] at hl
    subst hl
    exact matchesKeyword_replicate_a 1530
  have heq : extract_error_from_logs (List.replicate 1530 'a') =
      joinNL (((List.replicate 1530 'a' : List Char).splitOn '\n').drop
        (((List.replicate 1530 'a' : List Char).splitOn '\n').length - 40)) := by
    rw [extract_eq, extractWindows_eq_nil_of_nomatch _ hnm]
    rw [if_pos (show ([] : List (Nat × Nat)).isEmpty = true from rfl)]
  rw [heq, splitOn_replicate_a]
  have h1 : ([List.replicate 1530 'a'] : List (List Char)).length - 40 = 0 := by decide
  rw [h1, List.drop_zero]
  rw [show joinNL [List.replicate (1530 : Nat) 'a'] = List.replicate 1530 'a' from rfl]
  rw [List.length_replicate]
  have hmlen : truncMarker.length = 28 := by decide
  omega

/-! ### Claim C1 -/

/-- **C1** (amended): the windows rendered by the extractor are emitted
sorted by start index, and every matching line index is covered by at least
one rendered window; overlapping windows are however not merged, so a
document line can be rendered twice. -/
theorem c1_windows_sorted_cover (logs : List Char) :
    List.Chain' (fun a b => a.1 ≤ b.1) (extractWindows logs) ∧
      ∀ i line, (logs.splitOn '\n')[i]? = some line → matchesKeyword line = true →
        ∃ w ∈ extractWindows logs, w.1 ≤ i ∧ i < w.2 :=
  ⟨extractWindows_sorted logs,
   fun _ _ hget hm => extractWindows_cover logs hget hm⟩

theorem c1_windows_sorted_cover_witness :
    ∃ w ∈ extractWindows (("error: x").toList), w.1 ≤ 0 ∧ 0 < w.2 :=
  (c1_windows_sorted_cover (("error: x").toList)).2 0 (("error: x").toList)
    (by decide) (by decide)

/-- A 24-line document with keyword matches on lines 0 and 12: the two
rendered windows `[0,12)` and `[4,24)` overlap instead of being merged. -/
def dupDoc : List Char :=
  ("error: a\nm1\nm2\nm3\nm4\nm5\nm6\nm7\nm8\nm9\nm10\nm11\nerror: b\nm13\nm14\nm15\nm16\nm17\nm18\nm19\nm20\nm21\nm22\nm23").toList

set_option maxRecDepth 16384 in
/-- **C1** (counterexample): the document line `m4` appears twice in the
rendered output, so the rendered windows are not disjoint and line text is
duplicated, contrary to the claim. -/
theorem c1_counterexample :
    (("m4").toList ∈ dupDoc.splitOn '\n') ∧
      extractWindows dupDoc = [(0, 12), (4, 24)] ∧
      countOccur (("m4").toList) (extract_error_from_logs dupDoc) = 2 := by
  decide

/-! ### Claim C4 -/

/-- **C4** (amended): if the `i`-th line of the document matches a keyword,
the extractor's output is non-empty, and whenever the output is within the
1500-character budget (i.e. no truncation happened) it contains that line's
text.  (Truncation can cut the matching line out, which is why the second
part is conditional.) -/
theorem c4_match_line_contained (logs : List Char) (i : Nat) (line : List Char)
    (hget : (logs.splitOn '\n')[i]? = some line)
    (hm : matchesKeyword line = true) :
    extract_error_from_logs logs ≠ [] ∧
      ((extract_error_from_logs logs).length ≤ 1500 →
        line <:+: extract_error_from_logs logs) := by
  have hwne : extractWindows logs ≠ [] := extractWindows_ne_nil logs hget hm
  refine ⟨extract_ne_nil_of_windows logs hwne, ?_⟩
  intro hlen
  obtain ⟨w, hw, hwi1, hwi2⟩ := extractWindows_cover logs hget hm
  have hfin : extract_error_from_logs logs =
      joinNL (renderWindows (logs.splitOn '\n') 0 (extractWindows logs)) := by
    rw [extract_eq, if_neg (by simpa [List.isEmpty_iff] using hwne)]
    by_cases ht : 1500 <
        (joinNL (renderWindows (logs.splitOn '\n') 0 (extractWindows logs))).length
    · exfalso
      have he2 : extract_error_from_logs logs =
          (joinNL (renderWindows (logs.splitOn '\n') 0 (extractWindows logs))).take 1500
            ++ truncMarker := by
        rw [extract_eq, if_neg (by simpa [List.isEmpty_iff] using hwne), if_pos ht]
      rw [he2, List.length_append, List.length_take] at hlen
      have hmlen : truncMarker.length = 28 := by decide
      omega
    · rw [if_neg ht]
  have hslice : line ∈ ((logs.splitOn '\n').take w.2).drop w.1 := by
    apply List.getElem?_mem (n := i - w.1)
    rw [List.getElem?_drop]
    have harith : w.1 + (i - w.1) = i := by omega
    rw [harith, List.getElem?_take_of_lt hwi2]
    exact hget
  have h1 : line <:+: joinNL (((logs.splitOn '\n').take w.2).drop w.1) :=
    mem_infix_joinNL hslice
  have h2 : joinNL (((logs.splitOn '\n').take w.2).drop w.1) <:+:
      joinNL (renderWindows (logs.splitOn '\n') 0 (extractWindows logs)) :=
    mem_infix_joinNL (slice_mem_renderWindows _ _ _ hw 0)
  rw [hfin]
  exact h1.trans h2

theorem c4_match_line_contained_witness :
    ("error: x").toList <:+: extract_error_from_logs (("error: x").toList) :=
  (c4_match_line_contained (("error: x").toList) 0 (("error: x").toList)
    (by decide) (by decide)).2 (by decide)

/-- A document whose first line is 1600 characters long followed by a
matching line: the rendered window exceeds the budget and truncation cuts
the matching line out of the output. -/
def bigDoc : List Char := List.replicate 1600 'a' ++ '\n' :: ("error: xyz").toList

theorem bigDoc_splitOn :
    bigDoc.splitOn '\n' = [List.replicate 1600 'a', ("error: xyz").toList] := by
  rw [bigDoc, List.splitOn]
  have hrep : ∀ c ∈ (List.replicate 1600 'a' : List Char), ¬ ((c == '\n') = true) := by
    intro c hc
    rw [List.eq_of_mem_replicate hc]
    decide
  rw [List.splitOnP_first _ _ hrep '\n' (by decide)]
  rw [show (("error: xyz").toList).splitOnP (· == '\n') = [("error: xyz").toList] from
    List.splitOnP_eq_single _ _ (by decide)]

theorem bigDoc_windows : extractWindows bigDoc = [(0, 2)] := by
  have hw1 : windowStep 2 ([], []) (0, (List.replicate 1600 'a' : List Char)) =
      ([], []) := by
    unfold windowStep
    have hc : ¬ (matchesKeyword ((0 : Nat), (List.replicate 1600 'a' : List Char)).2
        = true) := by
      rw [show ((0 : Nat), (List.replicate 1600 'a' : List Char)).2
          = List.replicate 1600 'a' from rfl, matchesKeyword_replicate_a]
      exact Bool.false_ne_true
    rw [if_neg hc]
  have hw2 : windowStep 2 (([], []) : List Nat × List (Nat × Nat))
      (1, ("error: xyz").toList) = (List.range' 0 2, [(0, 2)]) := by
    decide
  simp only [extractWindows, bigDoc_splitOn]
  rw [show ([List.replicate 1600 'a', ("error: xyz").toList] : List (List Char)).length
      = 2 from rfl]
  rw [show ([List.replicate 1600 'a', ("error: xyz").toList] : List (List Char)).enum
      = [(0, List.replicate 1600 'a'), (1, ("error: xyz").toList)] from rfl]
  rw [List.foldl_cons, hw1, List.foldl_cons, hw2, List.foldl_nil]

theorem bigDoc_extract :
    extract_error_from_logs bigDoc =
      (headerStr 1 ++ '\n' :: List.replicate 1478 'a') ++ truncMarker := by
  have hrender : renderWindows (bigDoc.splitOn '\n') 0 (extractWindows bigDoc) =
      [headerStr 1,
       List.replicate 1600 'a' ++ '\n' :: ("error: xyz").toList, []] := by
    rw [bigDoc_windows, bigDoc_splitOn]
    rfl
  have hjoin : joinNL (renderWindows (bigDoc.splitOn '\n') 0 (extractWindows bigDoc)) =
      (headerStr 1 ++ '\n' :: List.replicate 1600 'a') ++
        '\n' :: (("error: xyz").toList ++ ['\n']) := by
    rw [hrender]
    simp only [joinNL, List.append_assoc, List.cons_append]
  have hhdr : (headerStr 1).length = 21 := by decide
  have hneedle : (("error: xyz").toList).length = 10 := by decide
  have hlen : (joinNL (renderWindows (bigDoc.splitOn '\n') 0 (extractWindows bigDoc))).length
      = 1634 := by
    rw [hjoin]
    simp only [List.length_append, List.length_cons, List.length_replicate,
      List.length_nil, hhdr, hneedle]
  rw [extract_eq, if_neg (by rw [bigDoc_windows]; decide),
    if_pos (by rw [hlen]; norm_num)]
  rw [hjoin]
  have h1 : ((headerStr 1 ++ '\n' :: List.replicate 1600 'a') : List Char).length
      = 1622 := by
    simp only [List.length_append, List.length_cons, List.length_replicate, hhdr]
  have htk : ((headerStr 1 ++ '\n' :: List.replicate 1600 'a') ++
      '\n' :: (("error: xyz").toList ++ ['\n'])).take 1500 =
      headerStr 1 ++ '\n' :: List.replicate 1478 'a' := by
    rw [List.take_append_eq_append_take, h1]
    rw [show (1500 - 1622 : Nat) = 0 from rfl, List.take_zero, List.append_nil]
    rw [List.take_append_eq_append_take]
    rw [List.take_of_length_le
      (show (headerStr 1).length ≤ 1500 by rw [hhdr]; norm_num)]
    rw [hhdr]
    rw [show (1500 - 21 : Nat) = 1478 + 1 from rfl, List.take_succ_cons,
      List.take_replicate]
    rw [show min 1478 1600 = 1478 from by norm_num]
  rw [htk]

/-- **C4** (counterexample): `bigDoc` contains the keyword-matching line
`error: xyz` as its second line, but the extractor's output does not contain
that line's text, because the 1500-character truncation cut it off. -/
theorem c4_counterexample :
    ((bigDoc.splitOn '\n')[1]? = some (("error: xyz").toList)) ∧
      matchesKeyword (("error: xyz").toList) = true ∧
      ¬ (("error: xyz").toList <:+: extract_error_from_logs bigDoc) := by
  refine ⟨by rw [bigDoc_splitOn]; rfl, by decide, ?_⟩
  intro hinf
  rw [bigDoc_extract] at hinf
  have hx : ('x' : Char) ∈ ("error: xyz").toList := by decide
  have hmem : ('x' : Char) ∈ (headerStr 1 ++ '\n' :: List.replicate 1478 'a')
      ++ truncMarker := hinf.sublist.subset hx
  rw [List.mem_append, List.mem_append, List.mem_cons] at hmem
  rcases hmem with (h | h | h) | h
  · exact absurd h (by decide)
  · exact absurd h (by decide)
  · exact absurd (List.eq_of_mem_replicate h) (by decide)
  · exact absurd h (by decide)

/-! ### `docker_scanner.py`: response parsing, prompt building, AI call,
vulnerability extraction -/

/-- Python dict assignment `d[k] = v` on an insertion-ordered association
list: an existing key keeps its position and gets the new value, a new key
is appended. -/
def dictInsert (d : List (List Char × List Char)) (k v : List Char) :
    List (List Char × List Char) :=
  if d.any (fun kv => kv.1 == k) then
    d.map (fun kv => if kv.1 == k then (k, v) else kv)
  else d ++ [(k, v)]

/-- The structured-response parsing loop of `generate_summary`:

```python
lines = ai_response.strip().split('\n')
parsed = {}
for line in lines:
    if ':' in line:
        key, value = line.split(':', 1)
        parsed[key.strip()] = value.strip()
```
-/
def parseSummaryLines (raw : List Char) : List (List Char × List Char) :=
  ((pyStrip raw).splitOn '\n').foldl
    (fun parsed line =>
      if ':' ∈ line then
        dictInsert parsed (pyStrip (line.takeWhile (fun c => c ≠ ':')))
          (pyStrip ((line.dropWhile (fun c => c ≠ ':')).drop 1))
      else parsed) []

/-- The required fields of the vulnerability-explanation prompt, in the
order the f-string of `explain_vulnerability` evaluates them. -/
def requiredVulnFields : List (List Char) :=
  [("id").toList, ("package").toList, ("version").toList,
   ("severity").toList, ("title").toList, ("fixed_version").toList]

/-- Python dict lookup `vuln[k]`: the value when the key is present,
otherwise a `KeyError` carrying the key name. -/
def vulnField (vuln : List (List Char × List Char)) (k : List Char) :
    Except (List Char) (List Char) :=
  match vuln.find? (fun kv => kv.1 == k) with
  | some kv => Except.ok kv.2
  | none => Except.error k

/-- `explain_vulnerability`: builds the prompt from the vulnerability
dictionary; a missing key raises `KeyError` at the first absent field in
f-string evaluation order. -/
def explain_vulnerability (vuln : List (List Char × List Char)) :
    Except (List Char) (List Char) :=
  match vulnField vuln (("id").toList) with
  | Except.error e => Except.error e
  | Except.ok i =>
    match vulnField vuln (("package").toList) with
    | Except.error e => Except.error e
    | Except.ok pk =>
      match vulnField vuln (("version").toList) with
      | Except.error e => Except.error e
      | Except.ok ver =>
        match vulnField vuln (("severity").toList) with
        | Except.error e => Except.error e
        | Except.ok sev =>
          match vulnField vuln (("title").toList) with
          | Except.error e => Except.error e
          | Except.ok t =>
            match vulnField vuln (("fixed_version").toList) with
            | Except.error e => Except.error e
            | Except.ok fx =>
              Except.ok
                ((("You are a security expert explaining vulnerabilities to developers.\n\nVulnerability Details:\n- ID: ").toList)
                  ++ i ++ (("\n- Package: ").toList) ++ pk
                  ++ ((" (version ").toList) ++ ver
                  ++ ((")\n- Severity: ").toList) ++ sev
                  ++ (("\n- Title: ").toList) ++ t
                  ++ (("\n\nExplain in 2-3 sentences:\n1. What this vulnerability means in simple terms\n2. Why it's dangerous\n3. How to fix it (fixed version: ").toList)
                  ++ fx
                  ++ ((")\n\nKeep it concise and actionable. Use analogies if helpful.").toList))

/-- The outcome of the POST to the generation endpoint as seen by
`ask_ollama`: either an HTTP response (status code and the optional
`response` field of the JSON body) or a transport-level request failure. -/
inductive GenOutcome where
  | httpResponse (status : Nat) (body : Option (List Char))
  | requestFailure (msg : List Char)

/-- `ask_ollama`: a 200 response yields the body text (defaulting to the
empty string), any other status or a request exception yields an
`Error ...` sentinel string; nothing is thrown. -/
def ask_ollama : GenOutcome → List Char
  | GenOutcome.httpResponse status body =>
      if status = 200 then body.getD []
      else ("Error: AI returned status code ").toList ++ (toString status).toList
  | GenOutcome.requestFailure msg =>
      ("Error communicating with AI: ").toList ++ msg

/-- One vulnerability entry of a Trivy scan result; every field is optional
because the source reads them with `dict.get` defaults. -/
structure TrivyVuln where
  vulnerabilityID : Option (List Char)
  pkgName : Option (List Char)
  installedVersion : Option (List Char)
  severity : Option (List Char)
  title : Option (List Char)
  description : Option (List Char)
  fixedVersion : Option (List Char)

structure TrivyResult where
  vulnerabilities : Option (List TrivyVuln)

structure TrivyScanData where
  results : Option (List TrivyResult)

def naStr : List Char := ("N/A").toList

/-- The record appended by `extract_vulnerabilities` for one Trivy entry. -/
structure VulnRecord where
  id : List Char
  package : List Char
  version : List Char
  severity : List Char
  title : List Char
  description : List Char
  fixed_version : List Char
deriving DecidableEq

def toVulnRecord (v : TrivyVuln) : VulnRecord where
  id := v.vulnerabilityID.getD naStr
  package := v.pkgName.getD naStr
  version := v.installedVersion.getD naStr
  severity := v.severity.getD naStr
  title := v.title.getD naStr
  description := v.description.getD naStr
  fixed_version := v.fixedVersion.getD (("Not available").toList)

/-- Loop body of `extract_vulnerabilities`: state is
`(vulnerabilities, seen_vulns)`. -/
def extractStep (acc : List VulnRecord × List (List Char)) (v : TrivyVuln) :
    List VulnRecord × List (List Char) :=
  if v.vulnerabilityID.getD naStr ∈ acc.2 then acc
  else (acc.1 ++ [toVulnRecord v], acc.2 ++ [v.vulnerabilityID.getD naStr])

def extract_vulnerabilities (d : TrivyScanData) : List VulnRecord :=
  ((d.results.getD []).foldl
    (fun acc r => (r.vulnerabilities.getD []).foldl extractStep acc)
    ([], [])).1

/-- The traversal order of the `Results`/`Vulnerabilities` arrays. -/
def flatVulns (d : TrivyScanData) : List TrivyVuln :=
  (d.results.getD []).flatMap (fun r => r.vulnerabilities.getD [])

/-- First-occurrence deduplication keyed on `id`, relative to an already
seen id set. -/
def dedupFirst : List VulnRecord → List (List Char) → List VulnRecord
  | [], _ => []
  | r :: t, seen =>
      if r.id ∈ seen then dedupFirst t seen
      else r :: dedupFirst t (seen ++ [r.id])

/-! ### Claim C9 -/

/-- **C9**: for every non-2xx response status and for every transport-level
request failure, `ask_ollama` returns a degraded-text result beginning with
`Error`; being a total function, it never propagates an exception. -/
theorem c9_ask_ollama_degrades (status : Nat) (body : Option (List Char))
    (msg : List Char) (h : ¬ (200 ≤ status ∧ status < 300)) :
    ("Error").toList <+: ask_ollama (GenOutcome.httpResponse status body) ∧
      ("Error").toList <+: ask_ollama (GenOutcome.requestFailure msg) := by
  have hs : status ≠ 200 := by omega
  constructor
  · simp only [ask_ollama, if_neg hs]
    exact (show ("Error").toList <+: ("Error: AI returned status code ").toList
      by decide).trans (List.prefix_append _ _)
  · simp only [ask_ollama]
    exact (show ("Error").toList <+: ("Error communicating with AI: ").toList
      by decide).trans (List.prefix_append _ _)

theorem c9_ask_ollama_degrades_witness :
    ("Error").toList <+: ask_ollama (GenOutcome.httpResponse 404 none) ∧
      ("Error").toList <+: ask_ollama (GenOutcome.requestFailure []) :=
  c9_ask_ollama_degrades 404 none [] (by omega)

/-! ### Claim C8 -/

/-- **C8**: if the caller omits a field required by the
vulnerability-explanation prompt, building the prompt fails with a key
error naming an absent required field; in particular the empty field map
fails naming `id`. -/
theorem c8_missing_field (vuln : List (List Char × List Char))
    (h : ∃ f ∈ requiredVulnFields, vuln.find? (fun kv => kv.1 == f) = none) :
    ∃ f ∈ requiredVulnFields, vuln.find? (fun kv => kv.1 == f) = none ∧
      explain_vulnerability vuln = Except.error f := by
  have hvf : ∀ (f : List Char) (kv : List Char × List Char),
      vuln.find? (fun kv => kv.1 == f) = some kv →
      vulnField vuln f = Except.ok kv.2 := by
    intro f kv hf; unfold vulnField; rw [hf]
  have hvfn : ∀ f : List Char, vuln.find? (fun kv => kv.1 == f) = none →
      vulnField vuln f = Except.error f := by
    intro f hf; unfold vulnField; rw [hf]
  by_cases h1 : vuln.find? (fun kv => kv.1 == ("id").toList) = none
  · exact ⟨("id").toList, by decide, h1, by
      unfold explain_vulnerability; rw [hvfn _ h1]⟩
  · obtain ⟨kv1, hkv1⟩ := Option.ne_none_iff_exists'.mp h1
    by_cases h2 : vuln.find? (fun kv => kv.1 == ("package").toList) = none
    · exact ⟨("package").toList, by decide, h2, by
        unfold explain_vulnerability; rw [hvf _ _ hkv1, hvfn _ h2]⟩
    · obtain ⟨kv2, hkv2⟩ := Option.ne_none_iff_exists'.mp h2
      by_cases h3 : vuln.find? (fun kv => kv.1 == ("version").toList) = none
      · exact ⟨("version").toList, by decide, h3, by
          unfold explain_vulnerability; rw [hvf _ _ hkv1, hvf _ _ hkv2, hvfn _ h3]⟩
      · obtain ⟨kv3, hkv3⟩ := Option.ne_none_iff_exists'.mp h3
        by_cases h4 : vuln.find? (fun kv => kv.1 == ("severity").toList) = none
        · exact ⟨("severity").toList, by decide, h4, by
            unfold explain_vulnerability
            rw [hvf _ _ hkv1, hvf _ _ hkv2, hvf _ _ hkv3, hvfn _ h4]⟩
        · obtain ⟨kv4, hkv4⟩ := Option.ne_none_iff_exists'.mp h4
          by_cases h5 : vuln.find? (fun kv => kv.1 == ("title").toList) = none
          · exact ⟨("title").toList, by decide, h5, by
              unfold explain_vulnerability
              rw [hvf _ _ hkv1, hvf _ _ hkv2, hvf _ _ hkv3, hvf _ _ hkv4, hvfn _ h5]⟩
          · obtain ⟨kv5, hkv5⟩ := Option.ne_none_iff_exists'.mp h5
            by_cases h6 : vuln.find? (fun kv => kv.1 == ("fixed_version").toList) = none
            · exact ⟨("fixed_version").toList, by decide, h6, by
                unfold explain_vulnerability
                rw [hvf _ _ hkv1, hvf _ _ hkv2, hvf _ _ hkv3, hvf _ _ hkv4,
                  hvf _ _ hkv5, hvfn _ h6]⟩
            · exfalso
              obtain ⟨f, hf, hnone⟩ := h
              fin_cases hf
              · exact h1 hnone
              · exact h2 hnone
              · exact h3 hnone
              · exact h4 hnone
              · exact h5 hnone
              · exact h6 hnone

theorem c8_missing_field_witness :
    ∃ f ∈ requiredVulnFields,
      List.find? (fun kv => kv.1 == f) ([] : List (List Char × List Char)) = none ∧
        explain_vulnerability [] = Except.error f :=
  c8_missing_field [] (by decide)

/-! ### Claim C10 -/

theorem toVulnRecord_id (v : TrivyVuln) :
    (toVulnRecord v).id = v.vulnerabilityID.getD naStr := rfl

theorem foldl_results_eq_flat (l : List TrivyResult) :
    ∀ acc : List VulnRecord × List (List Char),
      l.foldl (fun acc r => (r.vulnerabilities.getD []).foldl extractStep acc) acc =
        (l.flatMap (fun r => r.vulnerabilities.getD [])).foldl extractStep acc := by
  induction l with
  | nil => intro acc; rfl
  | cons r t ih =>
      intro acc
      rw [List.foldl_cons, List.flatMap_cons, List.foldl_append]
      exact ih _

theorem foldl_extractStep_eq_dedup (vulns : List TrivyVuln) :
    ∀ (accRec : List VulnRecord) (seen : List (List Char)),
      vulns.foldl extractStep (accRec, seen) =
        (accRec ++ dedupFirst (vulns.map toVulnRecord) seen,
         seen ++ (dedupFirst (vulns.map toVulnRecord) seen).map (fun r => r.id)) := by
  induction vulns with
  | nil => intro accRec seen; simp [dedupFirst]
  | cons v t ih =>
      intro accRec seen
      rw [List.foldl_cons, List.map_cons]
      by_cases h : (toVulnRecord v).id ∈ seen
      · have hstep : extractStep (accRec, seen) v = (accRec, seen) := by
          simp only [extractStep]
          rw [if_pos (by rw [← toVulnRecord_id]; exact h)]
        rw [hstep, ih accRec seen]
        simp only [dedupFirst, if_pos h]
      · have hstep : extractStep (accRec, seen) v =
            (accRec ++ [toVulnRecord v], seen ++ [(toVulnRecord v).id]) := by
          simp only [extractStep]
          rw [if_neg (by rw [← toVulnRecord_id]; exact h)]
          rw [← toVulnRecord_id]
        rw [hstep, ih (accRec ++ [toVulnRecord v]) (seen ++ [(toVulnRecord v).id])]
        simp only [dedupFirst, if_neg h, List.map_cons, List.append_assoc,
          List.singleton_append]

theorem extract_eq_dedupFirst (d : TrivyScanData) :
    extract_vulnerabilities d = dedupFirst ((flatVulns d).map toVulnRecord) [] := by
  unfold extract_vulnerabilities flatVulns
  rw [foldl_results_eq_flat, foldl_extractStep_eq_dedup]
  simp

theorem dedupFirst_sublist (l : List VulnRecord) :
    ∀ seen, List.Sublist (dedupFirst l seen) l := by
  induction l with
  | nil => intro seen; simp [dedupFirst]
  | cons r t ih =>
      intro seen
      simp only [dedupFirst]
      by_cases h : r.id ∈ seen
      · rw [if_pos h]
        exact (ih seen).cons r
      · rw [if_neg h]
        exact (ih (seen ++ [r.id])).cons₂ r

theorem dedupFirst_not_seen (l : List VulnRecord) :
    ∀ seen, ∀ r ∈ dedupFirst l seen, r.id ∉ seen := by
  induction l with
  | nil => intro seen r hr; simp [dedupFirst] at hr
  | cons v t ih =>
      intro seen r hr
      simp only [dedupFirst] at hr
      by_cases h : v.id ∈ seen
      · rw [if_pos h] at hr
        exact ih seen r hr
      · rw [if_neg h] at hr
        rw [List.mem_cons] at hr
        rcases hr with rfl | hr
        · exact h
        · have := ih (seen ++ [v.id]) r hr
          intro hs
          exact this (List.mem_append_left _ hs)

theorem dedupFirst_nodup (l : List VulnRecord) :
    ∀ seen, ((dedupFirst l seen).map (fun r => r.id)).Nodup := by
  induction l with
  | nil => intro seen; simp [dedupFirst]
  | cons v t ih =>
      intro seen
      simp only [dedupFirst]
      by_cases h : v.id ∈ seen
      · rw [if_pos h]; exact ih seen
      · rw [if_neg h]
        rw [List.map_cons, List.nodup_cons]
        refine ⟨?_, ih (seen ++ [v.id])⟩
        intro hmem
        rw [List.mem_map] at hmem
        obtain ⟨r, hr, hid⟩ := hmem
        have := dedupFirst_not_seen t (seen ++ [v.id]) r hr
        exact this (List.mem_append_right _ (by rw [hid]; exact List.mem_singleton.mpr rfl))

theorem dedupFirst_find? (l : List VulnRecord) :
    ∀ seen, ∀ r ∈ dedupFirst l seen,
      l.find? (fun x => x.id == r.id) = some r := by
  induction l with
  | nil => intro seen r hr; simp [dedupFirst] at hr
  | cons v t ih =>
      intro seen r hr
      simp only [dedupFirst] at hr
      by_cases h : v.id ∈ seen
      · rw [if_pos h] at hr
        have hb : (v.id == r.id) = false := by
          rw [beq_eq_false_iff_ne]
          intro he
          exact (dedupFirst_not_seen t seen r hr) (he ▸ h)
        simp only [List.find?, hb]
        exact ih seen r hr
      · rw [if_neg h] at hr
        rw [List.mem_cons] at hr
        rcases hr with rfl | hr
        · simp only [List.find?, beq_self_eq_true]
        · have hnotin := dedupFirst_not_seen t (seen ++ [v.id]) r hr
          have hb : (v.id == r.id) = false := by
            rw [beq_eq_false_iff_ne]
            intro he
            exact hnotin (List.mem_append_right _
              (by rw [← he]; exact List.mem_singleton.mpr rfl))
          simp only [List.find?, hb]
          exact ih (seen ++ [v.id]) r hr

theorem dedupFirst_cover (l : List VulnRecord) :
    ∀ seen, ∀ v ∈ l, v.id ∈ seen ∨ ∃ r ∈ dedupFirst l seen, r.id = v.id := by
  induction l with
  | nil => intro seen v hv; simp at hv
  | cons x t ih =>
      intro seen v hv
      rw [List.mem_cons] at hv
      simp only [dedupFirst]
      by_cases h : x.id ∈ seen
      · rw [if_pos h]
        rcases hv with heq | hv
        · exact Or.inl (heq ▸ h)
        · exact ih seen v hv
      · rw [if_neg h]
        rcases hv with heq | hv
        · exact Or.inr ⟨x, List.mem_cons_self _ _, by rw [heq]⟩
        · rcases ih (seen ++ [x.id]) v hv with hs | ⟨r, hr, hid⟩
          · rw [List.mem_append, List.mem_singleton] at hs
            rcases hs with hs | hs
            · exact Or.inl hs
            · exact Or.inr ⟨x, List.mem_cons_self _ _, hs.symm⟩
          · exact Or.inr ⟨r, List.mem_cons_of_mem _ hr, hid⟩

/-- **C10**: `extract_vulnerabilities` returns records with pairwise
distinct `id` fields; it is a subsequence of the traversal of the
`Results`/`Vulnerabilities` arrays (relative order preserved), each kept
record is the first occurrence of its `id` in traversal order, and every
traversed entry's `id` is represented. -/
theorem c10_extract_dedup (d : TrivyScanData) :
    ((extract_vulnerabilities d).map (fun r => r.id)).Nodup ∧
      List.Sublist (extract_vulnerabilities d) ((flatVulns d).map toVulnRecord) ∧
      (∀ r ∈ extract_vulnerabilities d,
        ((flatVulns d).map toVulnRecord).find? (fun x => x.id == r.id) = some r) ∧
      (∀ v ∈ flatVulns d, ∃ r ∈ extract_vulnerabilities d,
        r.id = (toVulnRecord v).id) := by
  rw [extract_eq_dedupFirst]
  refine ⟨dedupFirst_nodup _ [], dedupFirst_sublist _ [], dedupFirst_find? _ [], ?_⟩
  intro v hv
  have hmem : toVulnRecord v ∈ (flatVulns d).map toVulnRecord :=
    List.mem_map_of_mem _ hv
  rcases dedupFirst_cover ((flatVulns d).map toVulnRecord) [] (toVulnRecord v) hmem with
    hs | ⟨r, hr, hid⟩
  · simp at hs
  · exact ⟨r, hr, hid⟩

/-! ### Claim C7 -/

theorem dictInsert_keyMem (d : List (List Char × List Char)) (k v k' : List Char) :
    (∃ w, (k', w) ∈ dictInsert d k v) ↔ (∃ w, (k', w) ∈ d) ∨ k' = k := by
  unfold dictInsert
  by_cases h : d.any (fun kv => kv.1 == k)
  · rw [if_pos h]
    constructor
    · rintro ⟨w, hw⟩
      rw [List.mem_map] at hw
      obtain ⟨kv, hkv, heq⟩ := hw
      by_cases hk : (kv.1 == k) = true
      · rw [if_pos hk] at heq
        exact Or.inr (congrArg Prod.fst heq.symm)
      · rw [if_neg hk] at heq
        exact Or.inl ⟨w, heq ▸ hkv⟩
    · rintro (⟨w, hw⟩ | rfl)
      · by_cases hk : ((k', w).1 == k) = true
        · refine ⟨v, ?_⟩
          rw [List.mem_map]
          refine ⟨(k', w), hw, ?_⟩
          rw [if_pos hk]
          rw [beq_iff_eq] at hk
          have hk2 : k' = k := hk
          rw [hk2]
        · refine ⟨w, ?_⟩
          rw [List.mem_map]
          exact ⟨(k', w), hw, by rw [if_neg hk]⟩
      · rw [List.any_eq_true] at h
        obtain ⟨kv, hkv, hk⟩ := h
        refine ⟨v, ?_⟩
        rw [List.mem_map]
        refine ⟨kv, hkv, ?_⟩
        rw [if_pos hk]
  · rw [if_neg h]
    constructor
    · rintro ⟨w, hw⟩
      rw [List.mem_append, List.mem_singleton] at hw
      rcases hw with hw | hw
      · exact Or.inl ⟨w, hw⟩
      · exact Or.inr (congrArg Prod.fst hw)
    · rintro (⟨w, hw⟩ | rfl)
      · exact ⟨w, List.mem_append_left _ hw⟩
      · exact ⟨v, List.mem_append_right _ (List.mem_singleton.mpr rfl)⟩

/-- The loop body of the `generate_summary` parsing snippet. -/
def summaryStep (parsed : List (List Char × List Char)) (line : List Char) :
    List (List Char × List Char) :=
  if ':' ∈ line then
    dictInsert parsed (pyStrip (line.takeWhile (fun c => c ≠ ':')))
      (pyStrip ((line.dropWhile (fun c => c ≠ ':')).drop 1))
  else parsed

theorem parseSummaryLines_eq_fold (raw : List Char) :
    parseSummaryLines raw = ((pyStrip raw).splitOn '\n').foldl summaryStep [] := rfl

theorem summary_fold_keyMem (lines : List (List Char)) :
    ∀ (d : List (List Char × List Char)) (k' : List Char),
      (∃ w, (k', w) ∈ lines.foldl summaryStep d) ↔
        (∃ w, (k', w) ∈ d) ∨ ∃ line ∈ lines, ':' ∈ line ∧
          pyStrip (line.takeWhile (fun c => c ≠ ':')) = k' := by
  induction lines with
  | nil => intro d k'; simp
  | cons line t ih =>
      intro d k'
      rw [List.foldl_cons, ih]
      by_cases hc : ':' ∈ line
      · have hstep : summaryStep d line =
            dictInsert d (pyStrip (line.takeWhile (fun c => c ≠ ':')))
              (pyStrip ((line.dropWhile (fun c => c ≠ ':')).drop 1)) := by
          simp [summaryStep, hc]
        rw [hstep, dictInsert_keyMem]
        constructor
        · rintro ((hd | hk) | ht)
          · exact Or.inl hd
          · exact Or.inr ⟨line, List.mem_cons_self _ _, hc, hk.symm⟩
          · obtain ⟨l, hl, hlc, hlk⟩ := ht
            exact Or.inr ⟨l, List.mem_cons_of_mem _ hl, hlc, hlk⟩
        · rintro (hd | ⟨l, hl, hlc, hlk⟩)
          · exact Or.inl (Or.inl hd)
          · rw [List.mem_cons] at hl
            rcases hl with rfl | hl
            · exact Or.inl (Or.inr hlk.symm)
            · exact Or.inr ⟨l, hl, hlc, hlk⟩
      · have hstep : summaryStep d line = d := by
          simp [summaryStep, hc]
        rw [hstep]
        constructor
        · rintro (hd | ht)
          · exact Or.inl hd
          · obtain ⟨l, hl, hlc, hlk⟩ := ht
            exact Or.inr ⟨l, List.mem_cons_of_mem _ hl, hlc, hlk⟩
        · rintro (hd | ⟨l, hl, hlc, hlk⟩)
          · exact Or.inl hd
          · rw [List.mem_cons] at hl
            rcases hl with rfl | hl
            · exact absurd hlc hc
            · exact Or.inr ⟨l, hl, hlc, hlk⟩

/-- **C7** (amended): the scenario response parses to the mapping with the
keys kept in their original case (`SECURITY_POSTURE`, `VULNERABLE_PACKAGES`),
and in general exactly the lines containing a colon contribute an entry,
with key the trimmed text before the first colon; lines without a colon are
ignored. -/
theorem c7_linekey_parse :
    parseSummaryLines
        (("SECURITY_POSTURE: concerning\nVULNERABLE_PACKAGES: openssl, curl\n").toList) =
      [(("SECURITY_POSTURE").toList, ("concerning").toList),
       (("VULNERABLE_PACKAGES").toList, ("openssl, curl").toList)] ∧
    ∀ (raw k' : List Char),
      (∃ w, (k', w) ∈ parseSummaryLines raw) ↔
        ∃ line ∈ (pyStrip raw).splitOn '\n', ':' ∈ line ∧
          pyStrip (line.takeWhile (fun c => c ≠ ':')) = k' := by
  constructor
  · decide
  · intro raw k'
    rw [parseSummaryLines_eq_fold, summary_fold_keyMem]
    simp

/-- **C7** (counterexample): on the scenario input the parsed mapping has no
entry for the lower-cased key `security_posture`; the keys keep their
original upper case. -/
theorem c7_counterexample :
    (parseSummaryLines
        (("SECURITY_POSTURE: concerning\nVULNERABLE_PACKAGES: openssl, curl\n").toList)).find?
        (fun kv => kv.1 == ("security_posture").toList) = none := by
  decide

/-! ### Claim C2 (counterexample) -/

/-- **C2** (counterexample): the suffix-repetition repair is not
idempotent: on `abababab` one application returns `abab`, and a second
application shortens that further to `ab`. -/
theorem c2_counterexample :
    removeRepeatedSuffix (removeRepeatedSuffix (("abababab").toList)) ≠
      removeRepeatedSuffix (("abababab").toList) := by
  decide

/-! ### More strip lemmas (for the terraform parser) -/

theorem dropWhile_idem (p : Char → Bool) (l : List Char) :
    (l.dropWhile p).dropWhile p = l.dropWhile p := by
  cases h : l.dropWhile p with
  | nil => rfl
  | cons c t =>
      have hc : p c = false := by
        have := List.head?_dropWhile_not p l
        rw [h] at this
        simpa using this
      rw [List.dropWhile_cons_of_neg (by rw [hc]; exact Bool.false_ne_true)]

theorem pyRstrip_idem (l : List Char) : pyRstrip (pyRstrip l) = pyRstrip l := by
  unfold pyRstrip
  rw [List.reverse_reverse, dropWhile_idem]

theorem pyStrip_cons_ws {c : Char} (hc : pySpace c = true) (l : List Char) :
    pyStrip (c :: l) = pyStrip l := by
  unfold pyStrip pyLstrip
  rw [List.dropWhile_cons_of_pos hc]

theorem pyRstrip_append_ws {c : Char} (hc : pySpace c = true) (l : List Char) :
    pyRstrip (l ++ [c]) = pyRstrip l := by
  unfold pyRstrip
  rw [List.reverse_append, List.reverse_singleton, List.singleton_append,
    List.dropWhile_cons_of_pos hc]

theorem pyStrip_append_ws {c : Char} (hc : pySpace c = true) (l : List Char) :
    pyStrip (l ++ [c]) = pyStrip l := by
  unfold pyStrip pyLstrip
  rw [List.dropWhile_append]
  by_cases h : (l.dropWhile pySpace).isEmpty
  · rw [if_pos h]
    rw [List.isEmpty_iff] at h
    rw [h, List.dropWhile_cons_of_pos hc]
    rfl
  · rw [if_neg h]
    exact pyRstrip_append_ws hc _

theorem pyLstrip_pyRstrip_pyLstrip (l : List Char) :
    pyLstrip (pyRstrip (pyLstrip l)) = pyRstrip (pyLstrip l) := by
  cases h : pyRstrip (pyLstrip l) with
  | nil => rfl
  | cons c t =>
      have hpre : pyRstrip (pyLstrip l) <+: pyLstrip l := pyRstrip_prefix_self _
      rw [h] at hpre
      obtain ⟨t2, ht2⟩ := hpre
      have hc : pySpace c = false := by
        have hd : pyLstrip l = c :: (t ++ t2) := by
          rw [← ht2]; rfl
        have := List.head?_dropWhile_not pySpace l
        unfold pyLstrip at hd
        rw [hd] at this
        simpa using this
      unfold pyLstrip
      rw [List.dropWhile_cons_of_neg (by rw [hc]; exact Bool.false_ne_true)]

theorem pyStrip_idem (l : List Char) : pyStrip (pyStrip l) = pyStrip l := by
  show pyRstrip (pyLstrip (pyRstrip (pyLstrip l))) = pyRstrip (pyLstrip l)
  rw [pyLstrip_pyRstrip_pyLstrip, pyRstrip_idem]

/-! ### `parse_terraform_files` from `terraform_generator.py`

The response is split on `###`; a piece whose lower-cased text contains
`.tf`, `.tfvars` or `.hcl` is treated as a filename marker, other pieces
accumulate as content of the current file.  Two fallbacks handle
marker-free responses. -/

/-- Python `str.split("###")`: greedy leftmost splitting on the
three-character separator. -/
def splitOnHashes : List Char → List (List Char)
  | '#' :: '#' :: '#' :: rest => [] :: splitOnHashes rest
  | c :: rest => (splitOnHashes rest).modifyHead (fun s => c :: s)
  | [] => [[]]

theorem splitOnHashes_sep (rest : List Char) :
    splitOnHashes ('#' :: '#' :: '#' :: rest) = [] :: splitOnHashes rest := rfl

theorem sep_prefix_iff (c : Char) (rest : List Char) :
    (['#', '#', '#'] <+: (c :: rest)) ↔ c = '#' ∧ rest.take 2 = ['#', '#'] := by
  constructor
  · intro h
    rw [List.cons_prefix_cons] at h
    obtain ⟨hc, h2⟩ := h
    refine ⟨hc.symm, ?_⟩
    obtain ⟨t, ht⟩ := h2
    rw [← ht]
    rfl
  · rintro ⟨rfl, h2⟩
    rw [List.cons_prefix_cons]
    refine ⟨rfl, ?_⟩
    have := List.take_append_drop 2 rest
    rw [h2] at this
    exact ⟨rest.drop 2, this⟩

theorem splitOnHashes_no_sep (c : Char) (rest : List Char)
    (h : ¬ (['#', '#', '#'] <+: (c :: rest))) :
    splitOnHashes (c :: rest) = (splitOnHashes rest).modifyHead (fun s => c :: s) := by
  rw [splitOnHashes.eq_def]
  split
  · rename_i heq
    injection heq with h1 h2
    subst h1
    subst h2
    exact absurd ⟨_, rfl⟩ h
  · rename_i heq
    injection heq with h1 h2
    subst h1
    subst h2
    rfl
  · rename_i heq
    exact absurd heq (List.cons_ne_nil _ _)

theorem modifyHead_modifyHead (f g : List Char → List Char)
    (l : List (List Char)) :
    (l.modifyHead g).modifyHead f = l.modifyHead (fun s => f (g s)) := by
  cases l <;> rfl

theorem splitOnHashes_ne_nil (l : List Char) : splitOnHashes l ≠ [] := by
  induction l using splitOnHashes.induct with
  | case1 rest ih =>
      rw [splitOnHashes_sep]
      simp
  | case2 c rest h ih =>
      rw [splitOnHashes.eq_def]
      split
      · simp
      · rename_i heq
        injection heq with h1 h2
        subst h1
        subst h2
        cases hs : splitOnHashes rest with
        | nil => exact absurd hs ih
        | cons a t => simp [hs]
      · simp
  | case3 => simp [splitOnHashes]

theorem splitOnHashes_chunk (chunk : List Char) :
    ∀ tail : List Char, ¬ (['#', '#', '#'] <:+: chunk) →
      chunk.getLast? ≠ some '#' →
      splitOnHashes (chunk ++ tail) =
        (splitOnHashes tail).modifyHead (fun s => chunk ++ s) := by
  induction chunk with
  | nil =>
      intro tail _ _
      rw [List.nil_append]
      cases splitOnHashes tail <;> rfl
  | cons c cs ih =>
      intro tail h1 h2
      have hnp : ¬ (['#', '#', '#'] <+: (c :: (cs ++ tail))) := by
        intro hp
        rw [List.cons_prefix_cons] at hp
        obtain ⟨rfl, hp2⟩ := hp
        match cs, h2 with
        | [], h2 => exact h2 rfl
        | [d], h2 =>
            rw [List.singleton_append, List.cons_prefix_cons] at hp2
            exact h2 (by rw [hp2.1]; rfl)
        | d :: e :: cs2, h2 =>
            rw [List.cons_append, List.cons_prefix_cons] at hp2
            obtain ⟨rfl, hp3⟩ := hp2
            rw [List.cons_append, List.cons_prefix_cons] at hp3
            obtain ⟨rfl, _⟩ := hp3
            exact h1 (List.IsPrefix.isInfix
              ⟨cs2, rfl⟩)
      rw [List.cons_append, splitOnHashes_no_sep _ _ hnp]
      have hih : splitOnHashes (cs ++ tail) =
          (splitOnHashes tail).modifyHead (fun s => cs ++ s) := by
        apply ih tail
        · intro hinf
          exact h1 ((List.infix_cons_iff).mpr (Or.inr hinf))
        · intro hlast
          match cs, hlast with
          | d :: cs2, hlast =>
              exact h2 (by rw [List.getLast?_cons_cons]; exact hlast)
      rw [hih, modifyHead_modifyHead]
      rfl

theorem splitOnHashes_last (l : List Char) (h : ¬ (['#', '#', '#'] <:+: l)) :
    splitOnHashes l = [l] := by
  induction l with
  | nil => rw [splitOnHashes]
  | cons c rest ih =>
      have hnp : ¬ (['#', '#', '#'] <+: (c :: rest)) := by
        intro hp
        exact h (List.infix_cons_iff.mpr (Or.inl hp))
      rw [splitOnHashes_no_sep _ _ hnp]
      rw [ih (fun hinf => h (List.infix_cons_iff.mpr (Or.inr hinf)))]
      rfl

/-- `any(ext in section.lower() for ext in ['.tf', '.tfvars', '.hcl'])` -/
def isFilenameMarker (sect : List Char) : Bool :=
  decide ((".tf").toList <:+: lowerList sect)
    || decide ((".tfvars").toList <:+: lowerList sect)
    || decide ((".hcl").toList <:+: lowerList sect)

/-- Loop state of `parse_terraform_files`:
`(files, current_filename, current_content)`. -/
abbrev TFState :=
  List (List Char × List Char) × Option (List Char) × List (List Char)

/-- `if current_filename and current_content: files[current_filename] = '\n'.join(current_content).strip()`
(Python truthiness: `None` and the empty string/list are falsy). -/
def tfSave (files : List (List Char × List Char)) (fn? : Option (List Char))
    (content : List (List Char)) : List (List Char × List Char) :=
  match fn? with
  | some fn =>
      if fn ≠ [] ∧ content ≠ [] then dictInsert files fn (pyStrip (joinNL content))
      else files
  | none => files

/-- One iteration of the section loop of `parse_terraform_files`. -/
def tfStep (st : TFState) (rawSect : List Char) : TFState :=
  let sect := pyStrip rawSect
  if sect.isEmpty then st
  else if isFilenameMarker sect then
    (tfSave st.1 st.2.1 st.2.2,
     some (pyStrip ((sect.splitOn '\n').headD [])),
     (sect.splitOn '\n').tail)
  else (st.1, st.2.1, st.2.2 ++ [sect])

/-- Python `haystack.find(needle, start)`: the least index `≥ start` where
`needle` occurs, `none` standing for `-1`. -/
def pyFind (hay nee : List Char) (start : Nat) : Option Nat :=
  (List.range (hay.length + 1)).find?
    (fun i => decide (start ≤ i) && decide (nee <+: hay.drop i))

/-- Python `s.replace(old, new, 1)` specialised to `new = ""`. -/
def replaceOnce (hay old : List Char) : List Char :=
  match pyFind hay old 0 with
  | some i => hay.take i ++ hay.drop (i + old.length)
  | none => hay

/-- Python `s.replace(old, "")`: removes every (leftmost, non-overlapping)
occurrence. -/
def removeAll (old : List Char) : List Char → List Char
  | [] => []
  | c :: rest =>
      if h : old ≠ [] ∧ old <+: (c :: rest) then
        removeAll old ((c :: rest).drop old.length)
      else c :: removeAll old rest
termination_by l => l.length
decreasing_by
  · have hpos : 0 < old.length := List.length_pos.mpr h.1
    simp only [List.length_drop, List.length_cons]
    omega
  · simp only [List.length_cons]
    omega

def tfFallbackNames : List (List Char) :=
  [("main.tf").toList, ("variables.tf").toList, ("outputs.tf").toList,
   ("terraform.tfvars.example").toList]

/-- The first fallback of `parse_terraform_files`: look for the common
filenames in the lower-cased response and slice the text between them. -/
def tfFallback1 (resp : List Char) (files0 : List (List Char × List Char)) :
    List (List Char × List Char) :=
  tfFallbackNames.foldl
    (fun files filename =>
      match pyFind (lowerList resp) filename 0 with
      | none => files
      | some start =>
          let stop := tfFallbackNames.foldl
            (fun stop next_file =>
              if next_file ≠ filename then
                match pyFind (lowerList resp) next_file (start + filename.length) with
                | some next_pos =>
                    if start < next_pos ∧ next_pos < stop then next_pos else stop
                | none => stop
              else stop) resp.length
          let content := (resp.take stop).drop start
          let content := replaceOnce content filename
          let content := removeAll (("```hcl").toList) content
          let content := removeAll (("```terraform").toList) content
          let content := removeAll (("```").toList) content
          dictInsert files filename (pyStrip content))
    files0

def parse_terraform_files (resp : List Char) : List (List Char × List Char) :=
  let st := (splitOnHashes resp).foldl tfStep ([], none, [])
  let files := tfSave st.1 st.2.1 st.2.2
  let files2 := if files.isEmpty then tfFallback1 resp files else files
  if files2.isEmpty then [(("main.tf").toList, pyStrip resp)] else files2

/-! ### Claim C6 -/

theorem sep_not_infix_cons_nl {A : List Char}
    (h : ¬ (['#', '#', '#'] <:+: A)) :
    ¬ (['#', '#', '#'] <:+: ('\n' :: A)) := by
  intro hinf
  rw [List.infix_cons_iff] at hinf
  rcases hinf with hp | hinf
  · rw [List.cons_prefix_cons] at hp
    exact absurd hp.1 (by decide)
  · exact h hinf

theorem sep_not_infix_concat_nl {A : List Char}
    (h : ¬ (['#', '#', '#'] <:+: A)) :
    ¬ (['#', '#', '#'] <:+: (A ++ ['\n'])) := by
  intro hinf
  have h2 : (['#', '#', '#'] : List Char).reverse <:+: (A ++ ['\n']).reverse :=
    List.reverse_infix.mpr hinf
  rw [show ((['#', '#', '#'] : List Char).reverse) = ['#', '#', '#'] from by decide] at h2
  rw [List.reverse_append, List.reverse_singleton, List.singleton_append] at h2
  rw [List.infix_cons_iff] at h2
  rcases h2 with hp | h2
  · rw [List.cons_prefix_cons] at hp
    exact absurd hp.1 (by decide)
  · rw [show (['#', '#', '#'] : List Char) = (['#', '#', '#'] : List Char).reverse
      from by decide] at h2
    exact h (List.reverse_infix.mp h2)

theorem wrap_getLast (A : List Char) :
    ('\n' :: (A ++ ['\n'])).getLast? = some '\n' := by
  rw [show '\n' :: (A ++ ['\n']) = ('\n' :: A) ++ ['\n'] from by simp]
  exact List.getLast?_concat _

theorem tfStep_skip (st : TFState) {raw : List Char} (h : pyStrip raw = []) :
    tfStep st raw = st := by
  simp [tfStep, h]

theorem tfStep_marker (files : List (List Char × List Char))
    (fn? : Option (List Char)) (content : List (List Char)) {raw : List Char}
    (h1 : pyStrip raw ≠ []) (h2 : isFilenameMarker (pyStrip raw) = true) :
    tfStep (files, fn?, content) raw =
      (tfSave files fn? content,
       some (pyStrip (((pyStrip raw).splitOn '\n').headD [])),
       ((pyStrip raw).splitOn '\n').tail) := by
  rw [tfStep]
  rw [if_neg (by simpa [List.isEmpty_iff] using h1), if_pos h2]

theorem tfStep_content (files : List (List Char × List Char))
    (fn? : Option (List Char)) (content : List (List Char)) {raw : List Char}
    (h1 : pyStrip raw ≠ []) (h2 : isFilenameMarker (pyStrip raw) = false) :
    tfStep (files, fn?, content) raw = (files, fn?, content ++ [pyStrip raw]) := by
  rw [tfStep]
  rw [if_neg (by simpa [List.isEmpty_iff] using h1),
    if_neg (by rw [h2]; exact Bool.false_ne_true)]

/-- **C6** (amended): the round-trip holds for filename markers the parser
recognises (names containing `.tf`/`.tfvars`/`.hcl`), with keys kept
verbatim (trimmed, not lower-cased) and values whitespace-trimmed, for
block contents that are non-blank, contain no `###`, and are not themselves
filename markers. -/
theorem c6_roundtrip (A B : List Char)
    (hA1 : ¬ (['#', '#', '#'] <:+: A)) (hA2 : pyStrip A ≠ [])
    (hA3 : isFilenameMarker (pyStrip A) = false)
    (hB1 : ¬ (['#', '#', '#'] <:+: B)) (hB2 : pyStrip B ≠ [])
    (hB3 : isFilenameMarker (pyStrip B) = false) :
    parse_terraform_files
        (("### main.tf ###\n").toList ++ A ++
          ("\n### variables.tf ###\n").toList ++ B) =
      [(("main.tf").toList, pyStrip A), (("variables.tf").toList, pyStrip B)] := by
  have hinput : ("### main.tf ###\n").toList ++ A ++
      ("\n### variables.tf ###\n").toList ++ B =
      '#' :: '#' :: '#' :: ((" main.tf ").toList ++
        ('#' :: '#' :: '#' :: (('\n' :: (A ++ ['\n'])) ++
          ('#' :: '#' :: '#' :: ((" variables.tf ").toList ++
            ('#' :: '#' :: '#' :: ('\n' :: B))))))) := by
    rw [show ("### main.tf ###\n").toList =
      '#' :: '#' :: '#' :: ((" main.tf ").toList ++ ('#' :: '#' :: '#' :: ['\n']))
      from by decide]
    rw [show ("\n### variables.tf ###\n").toList =
      '\n' :: ('#' :: '#' :: '#' :: ((" variables.tf ").toList ++
        ('#' :: '#' :: '#' :: ['\n']))) from by decide]
    simp only [List.append_assoc, List.cons_append, List.singleton_append,
      List.nil_append]
  have hsections : splitOnHashes (("### main.tf ###\n").toList ++ A ++
      ("\n### variables.tf ###\n").toList ++ B) =
      [[], (" main.tf ").toList, '\n' :: (A ++ ['\n']),
       (" variables.tf ").toList, '\n' :: B] := by
    rw [hinput, splitOnHashes_sep]
    rw [splitOnHashes_chunk (" main.tf ").toList _ (by decide) (by decide)]
    rw [splitOnHashes_sep]
    rw [splitOnHashes_chunk ('\n' :: (A ++ ['\n'])) _
      (sep_not_infix_cons_nl (sep_not_infix_concat_nl hA1))
      (by rw [wrap_getLast]; decide)]
    rw [splitOnHashes_sep]
    rw [splitOnHashes_chunk (" variables.tf ").toList _ (by decide) (by decide)]
    rw [splitOnHashes_sep]
    rw [splitOnHashes_last ('\n' :: B) (sep_not_infix_cons_nl hB1)]
    simp [List.modifyHead]
  have hstripA : pyStrip ('\n' :: (A ++ ['\n'])) = pyStrip A := by
    rw [pyStrip_cons_ws (by decide), pyStrip_append_ws (by decide)]
  have hstripB : pyStrip ('\n' :: B) = pyStrip B := pyStrip_cons_ws (by decide) B
  have hsave1 : tfSave [] (some (("main.tf").toList)) [pyStrip A] =
      [(("main.tf").toList, pyStrip A)] := by
    simp only [tfSave]
    rw [if_pos ⟨by decide, List.cons_ne_nil _ _⟩]
    simp only [dictInsert]
    rw [if_neg (by simp)]
    rw [List.nil_append]
    rw [show joinNL [pyStrip A] = pyStrip A from rfl, pyStrip_idem]
  have hsave2 : tfSave [(("main.tf").toList, pyStrip A)]
      (some (("variables.tf").toList)) [pyStrip B] =
      [(("main.tf").toList, pyStrip A), (("variables.tf").toList, pyStrip B)] := by
    simp only [tfSave]
    rw [if_pos ⟨by decide, List.cons_ne_nil _ _⟩]
    simp only [dictInsert, List.any_cons, List.any_nil]
    rw [if_neg (by rw [show ((("main.tf").toList == ("variables.tf").toList) : Bool)
      = false from by decide]; simp)]
    rw [show joinNL [pyStrip B] = pyStrip B from rfl, pyStrip_idem]
    rfl
  simp only [parse_terraform_files]
  rw [hsections]
  rw [List.foldl_cons, tfStep_skip _ (by decide)]
  rw [List.foldl_cons,
    show tfStep (([], none, []) : TFState) ((" main.tf ").toList) =
      ([], some (("main.tf").toList), []) from by decide]
  rw [List.foldl_cons,
    tfStep_content [] (some (("main.tf").toList)) []
      (hstripA.symm ▸ hA2) (hstripA.symm ▸ hA3),
    hstripA, List.nil_append]
  rw [List.foldl_cons,
    tfStep_marker [] (some (("main.tf").toList)) [pyStrip A]
      (by decide) (by decide),
    hsave1]
  rw [show pyStrip ((((pyStrip ((" variables.tf ").toList)).splitOn '\n')).headD [])
      = ("variables.tf").toList from by decide]
  rw [show ((pyStrip ((" variables.tf ").toList)).splitOn '\n').tail
      = ([] : List (List Char)) from by decide]
  rw [List.foldl_cons,
    tfStep_content [(("main.tf").toList, pyStrip A)]
      (some (("variables.tf").toList)) []
      (hstripB.symm ▸ hB2) (hstripB.symm ▸ hB3),
    hstripB, List.nil_append]
  rw [List.foldl_nil, hsave2]
  rw [show (if ([(("main.tf").toList, pyStrip A),
        (("variables.tf").toList, pyStrip B)] : List (List Char × List Char)).isEmpty
      then tfFallback1 (("### main.tf ###\n").toList ++ A ++
        ("\n### variables.tf ###\n").toList ++ B)
        [(("main.tf").toList, pyStrip A), (("variables.tf").toList, pyStrip B)]
      else [(("main.tf").toList, pyStrip A), (("variables.tf").toList, pyStrip B)])
      = [(("main.tf").toList, pyStrip A), (("variables.tf").toList, pyStrip B)]
    from by rw [if_neg (by simp)]]
  rw [if_neg (by simp)]

/-- **C6** (counterexample): a response built with generic block names `A`
and `B` does not parse to `{a: ..., b: ...}`: the section markers are not
recognised (they contain no `.tf`/`.tfvars`/`.hcl`), and the whole input is
assigned to the default key `main.tf`. -/
theorem c6_counterexample :
    parse_terraform_files (("### A ###\nx\n### B ###\ny").toList) =
        [(("main.tf").toList, ("### A ###\nx\n### B ###\ny").toList)] ∧
      (parse_terraform_files (("### A ###\nx\n### B ###\ny").toList)).find?
        (fun kv => kv.1 == ("a").toList) = none ∧
      (parse_terraform_files (("### A ###\nx\n### B ###\ny").toList)).find?
        (fun kv => kv.1 == ("A").toList) = none := by
  decide

theorem c6_roundtrip_witness :
    parse_terraform_files ((("### main.tf ###\n").toList ++ ("resource a").toList ++
        ("\n### variables.tf ###\n").toList ++ ("variable b").toList)) =
      [(("main.tf").toList, pyStrip (("resource a").toList)),
       (("variables.tf").toList, pyStrip (("variable b").toList))] :=
  c6_roundtrip (("resource a").toList) (("variable b").toList)
    (by decide) (by decide) (by decide) (by decide) (by decide) (by decide)

theorem c7_linekey_parse_witness :
    ∃ w, ((("SECURITY_POSTURE").toList, w) ∈ parseSummaryLines
      (("SECURITY_POSTURE: concerning\nVULNERABLE_PACKAGES: openssl, curl\n").toList)) :=
  (c7_linekey_parse.2
    (("SECURITY_POSTURE: concerning\nVULNERABLE_PACKAGES: openssl, curl\n").toList)
    (("SECURITY_POSTURE").toList)).mpr (by decide)

/-- A single Trivy vulnerability entry used to witness C10. -/
def exampleVuln : TrivyVuln :=
  { vulnerabilityID := some (("CVE-2024-0001").toList), pkgName := none,
    installedVersion := none, severity := none, title := none,
    description := none, fixedVersion := none }

/-- A one-result, one-vulnerability scan used to witness C10. -/
def exampleScan : TrivyScanData :=
  { results := some [({ vulnerabilities := some [exampleVuln] } : TrivyResult)] }

theorem c10_extract_dedup_witness :
    ∃ r ∈ extract_vulnerabilities exampleScan,
      r.id = (toVulnRecord exampleVuln).id :=
  (c10_extract_dedup exampleScan).2.2.2 exampleVuln
    (by show exampleVuln ∈ flatVulns exampleScan
        rw [show flatVulns exampleScan = [exampleVuln] ++ [] from rfl]
        simp)

end AIDevOps

